import Mathlib

/-!
Verification of the segmentation-and-scoring pipeline in
`src/downloads/prepare_local.py`.

The Python functions are shallowly embedded as executable Lean
definitions:

* JSON values (as produced by `json.loads`) become the inductive `Json`;
  Python `dict`s are association lists in insertion order, which is the
  iteration order of Python dicts.
* Python exceptions become `Option`/`Except` failure values.
* Python `float` start times and VMAF scores are modelled as `ℚ`:
  every claim under study is about which entries are combined, not about
  floating-point rounding.
* Python strings that are inspected character by character are modelled
  via `List Char` so that all operations compute by kernel reduction.
-/

namespace PrepareLocal

/-! ## JSON model and `extract_vmaf_score` (lines 174-223) -/

/-- A JSON value as loaded by `json.loads`.  Object fields keep the
textual order of the document, matching Python dict insertion order. -/
inductive Json where
  | num : ℚ → Json
  | str : String → Json
  | bool : Bool → Json
  | null : Json
  | arr : List Json → Json
  | obj : List (String × Json) → Json

/-- Python `d[k]` / `k in d` on a dict: first binding of the key. -/
def jfind? (l : List (String × Json)) (k : String) : Option Json :=
  (l.find? (fun p => p.1 == k)).map (fun p => p.2)

/-- Python `isinstance(val, (int, float))` together with `float(val)`.
Note `bool` is a subclass of `int` in Python, so booleans count as
numeric and coerce to 0/1. -/
def pyNum? : Json → Option ℚ
  | .num q => some q
  | .bool b => some (if b then 1 else 0)
  | _ => none

/-- Shape information carried by the final `KeyError` of
`extract_vmaf_score`: `list(v.keys())` for a dict, `type(v)` otherwise. -/
inductive TopShape where
  | keys : List String → TopShape
  | typeName : String → TopShape
deriving DecidableEq

/-- Failure of `extract_vmaf_score`: either no score was found anywhere
(`KeyError`, line 223, carrying the top-level shape), or a matched field
could not be converted by `float(...)` (`TypeError`). -/
inductive VmafErr where
  | notFound : TopShape → VmafErr
  | badValue : VmafErr
deriving DecidableEq

/-- `float(x)` applied to a matched score field.  Numbers and booleans
convert; other shapes raise `TypeError`.  (Python would also parse a
numeric string; string-valued score fields are not modelled since no
report under study contains one.) -/
def pyFloatE (x : Json) : Except VmafErr ℚ :=
  match pyNum? x with
  | some q => Except.ok q
  | none => Except.error VmafErr.badValue

/-- Schema 1 (lines 180-185): top-level `aggregate` dict with a
`VMAF_score` or `VMAF` field.  `none` means fall through to the next
schema. -/
def tryAgg (v : Json) : Option (Except VmafErr ℚ) :=
  match v with
  | .obj l =>
    match jfind? l "aggregate" with
    | some (.obj agg) =>
      (match jfind? agg "VMAF_score" with
       | some x => some (pyFloatE x)
       | none =>
         match jfind? agg "VMAF" with
         | some x => some (pyFloatE x)
         | none => none)
    | _ => none
  | _ => none

/-- Schema 2 (lines 188-194): `pooled_metrics.vmaf` dict, first of
`mean`, `harmonic_mean`, `min`, `max` that is present. -/
def tryPooled (v : Json) : Option (Except VmafErr ℚ) :=
  match v with
  | .obj l =>
    match jfind? l "pooled_metrics" with
    | some (.obj pm) =>
      (match jfind? pm "vmaf" with
       | some (.obj vv) =>
         (match jfind? vv "mean" with
          | some x => some (pyFloatE x)
          | none =>
            match jfind? vv "harmonic_mean" with
            | some x => some (pyFloatE x)
            | none =>
              match jfind? vv "min" with
              | some x => some (pyFloatE x)
              | none =>
                match jfind? vv "max" with
                | some x => some (pyFloatE x)
                | none => none)
       | _ => none)
    | _ => none
  | _ => none

/-- Schema 3 (lines 197-200): `metrics.vmaf.mean`. -/
def tryMetrics (v : Json) : Option (Except VmafErr ℚ) :=
  match v with
  | .obj l =>
    match jfind? l "metrics" with
    | some (.obj m) =>
      (match jfind? m "vmaf" with
       | some (.obj mv) =>
         (match jfind? mv "mean" with
          | some x => some (pyFloatE x)
          | none => none)
       | _ => none)
    | _ => none
  | _ => none

/-- `str(k).lower()` on a field name. -/
def lowerKey (s : String) : List Char := s.data.map Char.toLower

mutual

/-- Schema 4, the generic fallback (lines 203-217): depth-first walk of
the whole report, returning the first numeric value stored under a key
whose lower-cased spelling is `vmaf_score` or `vmaf`. -/
def walk : Json → Option ℚ
  | .obj l => walkFields l
  | .arr l => walkElems l
  | _ => none

/-- The dict branch of `walk`: fields in insertion order; a matching
numeric field returns immediately, otherwise recurse into the value
before moving to the next field. -/
def walkFields : List (String × Json) → Option ℚ
  | [] => none
  | (k, val) :: rest =>
    if (lowerKey k = "vmaf_score".data ∨ lowerKey k = "vmaf".data) ∧
        (pyNum? val).isSome then
      pyNum? val
    else
      match walk val with
      | some r => some r
      | none => walkFields rest

/-- The list branch of `walk`: elements in order. -/
def walkElems : List Json → Option ℚ
  | [] => none
  | x :: rest =>
    match walk x with
    | some r => some r
    | none => walkElems rest

end

/-- The shape reported by the final `KeyError` (line 223):
`list(v.keys())` when the report is a dict, else the value's Python
type name. -/
def topShape : Json → TopShape
  | .obj l => .keys (l.map (fun p => p.1))
  | .arr _ => .typeName "list"
  | .str _ => .typeName "str"
  | .num _ => .typeName "float"
  | .bool _ => .typeName "bool"
  | .null => .typeName "NoneType"

/-- `extract_vmaf_score` (lines 174-223): the four strategies in order,
then the descriptive `KeyError`. -/
def extract_vmaf_score (v : Json) : Except VmafErr ℚ :=
  match tryAgg v with
  | some r => r
  | none =>
    match tryPooled v with
    | some r => r
    | none =>
      match tryMetrics v with
      | some r => r
      | none =>
        match walk v with
        | some q => Except.ok q
        | none => Except.error (VmafErr.notFound (topShape v))

/-! ## Per-segment timing maps and `compute_vmaf` windows (lines 262-271)

`seg_info[rate]` is a Python dict mapping segment number to its data;
`segment_rep` populates it for segments `1..segments` in ascending
order, so it is modelled as an association list of `(segment, start
time)` pairs. -/

/-- Python `seg_info[rate][seg]["start_time"]`: dict lookup, `none` when
the key is absent (`KeyError`). -/
def lookupSeg (m : List (ℕ × ℚ)) (k : ℕ) : Option ℚ :=
  (m.find? (fun p => p.1 == k)).map (fun p => p.2)

/-- Python `max(seg_info[rate].keys())` (line 265); `max` of an empty
dict raises, hence `Option`. -/
def maxKey (m : List (ℕ × ℚ)) : Option ℕ :=
  match m.map (fun p => p.1) with
  | [] => none
  | k :: ks => some (ks.foldl max k)

/-- The duration `t` computed for segment `seg` (lines 266-271):
`start(seg+1) - start(seg)` for `seg < segments`, and
`start(seg) - start(seg-1)` for the last segment. -/
def segDuration (m : List (ℕ × ℚ)) (seg : ℕ) : Option ℚ := do
  let segments ← maxKey m
  let ss ← lookupSeg m seg
  if seg < segments then
    let nxt ← lookupSeg m (seg + 1)
    pure (nxt - ss)
  else
    let prev ← lookupSeg m (seg - 1)
    pure (ss - prev)

/-- The per-rate loop of `compute_vmaf` (lines 265-271): for each
segment `1..segments` in order, the pair `(start, duration)` fed to the
two ffmpeg cut commands; any `KeyError` aborts the whole run. -/
def vmafWindows (m : List (ℕ × ℚ)) : Option (List (ℕ × ℚ × ℚ)) := do
  let segments ← maxKey m
  (List.range segments).mapM (fun i => do
    let seg := i + 1
    let ss ← lookupSeg m seg
    let t ← segDuration m seg
    pure (seg, ss, t))

/-- The shape of `segment_rep`'s output (lines 98-104): start times for
segments `1..s`, keyed in ascending order. -/
def mkSegMap (f : ℕ → ℚ) : ℕ → List (ℕ × ℚ)
  | 0 => []
  | s + 1 => mkSegMap f s ++ [(s + 1, f (s + 1))]

/-! ## `get_attr` and the timing loop of `segment_rep` (lines 25-26, 96-104)

Python strings inspected by slicing are modelled as `List Char`. -/

/-- Python `s.split(sep)` for a non-empty separator: non-overlapping,
leftmost-first.  The `skip` counter consumes the remaining characters
of a matched separator, keeping the recursion structural. -/
def pySplitGo (sep : List Char) : List Char → ℕ → List Char → List (List Char)
  | [], _, acc => [acc.reverse]
  | _ :: rest, skip + 1, acc => pySplitGo sep rest skip acc
  | c :: rest, 0, acc =>
    if sep.isPrefixOf (c :: rest) then
      acc.reverse :: pySplitGo sep rest (sep.length - 1) []
    else
      pySplitGo sep rest 0 (c :: acc)

/-- Python `s.split(sep)`. -/
def pySplit (s sep : List Char) : List (List Char) :=
  pySplitGo sep s 0 []

/-- One decimal digit. -/
def digitVal? (c : Char) : Option ℕ :=
  if c.isDigit then some (c.toNat - 48) else none

def digitsToNatGo : List Char → ℕ → Option ℕ
  | [], acc => some acc
  | c :: rest, acc =>
    match digitVal? c with
    | some d => digitsToNatGo rest (acc * 10 + d)
    | none => none

/-- Python `int(s)` on an attribute slice: an optional sign followed by
decimal digits; anything else raises `ValueError` (leading/trailing
whitespace and `+` are accepted by Python but never occur here). -/
def pyInt? : List Char → Option ℤ
  | [] => none
  | '-' :: rest =>
    match rest with
    | [] => none
    | _ => (digitsToNatGo rest 0).map (fun n => -(n : ℤ))
  | s => (digitsToNatGo s 0).map (fun n => (n : ℤ))

/-- `get_attr` (lines 25-26): `raw_xml.split(attr)[1].split(CHR(34))[1]`,
the slice between the first and second double quote after the first
occurrence of the attribute name; a missing occurrence raises
`IndexError`. -/
def get_attr (raw attr : String) : Option (List Char) := do
  let part1 ← (pySplit raw.data attr.data)[1]?
  (pySplit part1 ['"'])[1]?

/-- The timing loop of `segment_rep` (lines 98-104): for each segment
`1..segments`, parse `timescale` and `earliest_presentation_time` out of
the `MP4Box -std -diso` output for that chunk and record
`earliest / timescale` as the segment's start time.  Parse failures
raise; `timescale = 0` would raise `ZeroDivisionError`. -/
def segStartTimes (segments : ℕ) (raw : ℕ → String) :
    Option (List (ℕ × ℚ)) :=
  (List.range segments).mapM (fun i => do
    let seg := i + 1
    let tsChars ← get_attr (raw seg) "timescale"
    let timescale ← pyInt? tsChars
    let esChars ← get_attr (raw seg) "earliest_presentation_time"
    let earliest ← pyInt? esChars
    if timescale = 0 then none
    else pure (seg, (earliest : ℚ) / (timescale : ℚ)))

/-- A `SegmentIndexBox` line as printed by `MP4Box -std -diso`. -/
def sidxDemo : String :=
  "<SegmentIndexBox Size=\"56\" Type=\"sidx\" Version=\"0\" Flags=\"0\" reference_ID=\"1\" timescale=\"12800\" earliest_presentation_time=\"64000\" first_offset=\"0\">"

/-! ## `transcode_h264_reps` (lines 29-64) and the re-run behaviour of
`run` (lines 299-324) -/

/-- The parameters of one ffmpeg invocation built on lines 53-60, one
field per flag of the command string. -/
structure EncodeCmd where
  src : String
  fps : ℕ
  gop : ℕ
  keyint_min : ℕ
  sc_threshold : ℕ
  bitrate : ℕ
  maxrate : ℕ
  bufsize : ℕ
  out : String
deriving DecidableEq

/-- The command string of lines 53-60 rendered from its parameters. -/
def EncodeCmd.render (c : EncodeCmd) : String :=
  "ffmpeg -y -i \"" ++ c.src ++ "\" -an -c:v libx264 -preset slow -r " ++
    toString c.fps ++ " -g " ++ toString c.gop ++ " -keyint_min " ++
    toString c.keyint_min ++ " -sc_threshold " ++ toString c.sc_threshold ++
    " -b:v " ++ toString c.bitrate ++ "k -maxrate " ++ toString c.maxrate ++
    "k -bufsize " ++ toString c.bufsize ++ "k \"" ++ c.out ++ "\""

/-- `transcode_h264_reps` (lines 29-64): returns the `rate -> output
path` map and the list of encoder invocations actually issued.
`isfile` models `os.path.isfile`; a rate whose output file exists is
recorded in the map without an invocation (lines 49-51). -/
def transcode_h264_reps (src_mp4 out_dir : String) (rates_kbps : List ℕ)
    (fps seg_s : ℕ) (isfile : String → Bool) :
    List (ℕ × String) × List EncodeCmd :=
  let gop := fps * seg_s
  rates_kbps.foldl
    (fun acc r =>
      let out_mp4 := out_dir ++ "/rep_" ++ toString r ++ ".mp4"
      if isfile out_mp4 then
        (acc.1 ++ [(r, out_mp4)], acc.2)
      else
        (acc.1 ++ [(r, out_mp4)],
         acc.2 ++ [⟨src_mp4, fps, gop, gop, 0, r, 2 * r, 4 * r, out_mp4⟩]))
    ([], [])

/-! ## Re-run behaviour of the whole pipeline (claim C9) -/

/-- One external invocation of the pipeline, as issued by `run`
(lines 299-324). -/
inductive Action where
  | encode : ℕ → Action
  | mp4boxSegment : ℕ → Action
  | vmafScore : Action
deriving DecidableEq

/-- The sequence of external tool invocations of one `run` (lines
299-324): encodes for the rates whose `rep_<r>.mp4` is missing (lines
47-51), then one unconditional `segment_rep` MP4Box invocation per rate
(lines 314-317 — `segment_rep` clears and re-creates the segment
directory with no existence check, lines 73-94), then VMAF scoring
unless `vmaf.json` exists (lines 241-243). -/
def run_actions (video_name : String) (rates : List ℕ)
    (fps seg_s : ℕ) (isfile : String → Bool) (vmafFlag : Bool) :
    List Action :=
  (transcode_h264_reps "input.mp4" ("videos/" ++ video_name ++ "/tmp")
      rates fps seg_s isfile).2.map (fun c => Action.encode c.bitrate)
    ++ rates.map (fun r => Action.mp4boxSegment r)
    ++ (if vmafFlag &&
          !(isfile ("videos/" ++ video_name ++ "/vmaf.json")) then
        [Action.vmafScore]
      else [])

/-! ## XML model and `build_common_manifest` (lines 107-158)

`xml.etree.ElementTree` elements become the inductive `Xml`;
`tree[i]` indexes children (raising `IndexError` when absent, hence
`Option`), `set` mutates an attribute in place, and the merge is the
pure state-passing version of the Python loop.  The fragment fed to
the loop is its tree as parsed after the `Initialization`-line
stripping of lines 121-125 (a textual preprocessing that only removes
`Initialization` child elements, none of which the claims mention). -/

/-- An XML element: tag, attributes in document order, children. -/
inductive Xml where
  | node : String → List (String × String) → List Xml → Xml

def Xml.tag : Xml → String
  | .node t _ _ => t

def Xml.attrs : Xml → List (String × String)
  | .node _ a _ => a

def Xml.children : Xml → List Xml
  | .node _ _ c => c

/-- `element.set(k, v)` on the attribute dict: replace in place if the
key exists, else append. -/
def setAttrList (l : List (String × String)) (k v : String) :
    List (String × String) :=
  if l.any (fun p => p.1 == k) then
    l.map (fun p => if p.1 == k then (k, v) else p)
  else
    l ++ [(k, v)]

def Xml.setAttr : Xml → String → String → Xml
  | .node t a c, k, v => .node t (setAttrList a k v) c

/-- `element.get(k)`. -/
def Xml.getAttr : Xml → String → Option String
  | .node _ a _, k => (a.find? (fun p => p.1 == k)).map (fun p => p.2)

/-- Python `pat in s` substring test. -/
def listContainsSub (pat : List Char) : List Char → Bool
  | [] => pat.isEmpty
  | c :: rest => pat.isPrefixOf (c :: rest) || listContainsSub pat rest

/-- `"Representation" in child.tag` (line 132): ElementTree tags carry
a namespace, hence the substring test in the source. -/
def hasRepTag (x : Xml) : Bool :=
  listContainsSub "Representation".data x.tag.data

/-- The loop of lines 131-133: the LAST child whose tag contains
`Representation`, together with its position. -/
def lastRep? (cs : List Xml) : Option (ℕ × Xml) :=
  (cs.foldl
    (fun (st : ℕ × Option (ℕ × Xml)) c =>
      (st.1 + 1, if hasRepTag c then some (st.1, c) else st.2))
    (0, none)).2

/-- `sorted(rates)` (line 137): Python sorted is an ascending stable
sort; on naturals any correct ascending sort yields the same list. -/
def pySorted (l : List ℕ) : List ℕ :=
  l.insertionSort (fun a b => a ≤ b)

/-- `sorted(rates).index(rate)` (line 137): the 0-based rank. -/
def rankIdx (rates : List ℕ) (rate : ℕ) : ℕ :=
  (pySorted rates).indexOf rate

/-- The identifier written on line 138: `video<rank>`. -/
def rankId (rates : List ℕ) (rate : ℕ) : String :=
  "video" ++ toString (rankIdx rates rate)

/-- Lines 148-149: rewrite the shared segment template of the base
fragment to representation-relative paths. -/
def setTemplateAttrs (st : Xml) : Xml :=
  (st.setAttr "initialization" "$RepresentationID$/init.mp4").setAttr
    "media" "$RepresentationID$/$Number$.m4s"

/-- One iteration of the merge loop (lines 116-151) in state-passing
form.  The state is (the base tree so far, the `info` entries so far);
any Python exception (index error, missing Representation node,
unparsable width/height) makes the whole call fail. -/
def bcmStep (rates : List ℕ) (frags : ℕ → Xml)
    (acc : Option Xml × List (ℕ × ℤ × ℤ)) (rate : ℕ) :
    Option (Option Xml × List (ℕ × ℤ × ℤ)) := do
  let tree := frags rate
  let l1 ← tree.children[1]?
  let root ← l1.children[0]?
  let rip ← lastRep? root.children
  let rep := rip.2
  let rep' := rep.setAttr "id" (rankId rates rate)
  let ws ← rep'.getAttr "width"
  let w ← pyInt? ws.data
  let hs ← rep'.getAttr "height"
  let hh ← pyInt? hs.data
  match acc.1 with
  | none =>
    let root1 := Xml.node root.tag root.attrs (root.children.set rip.1 rep')
    let st ← root1.children[0]?
    let root2 := Xml.node root1.tag root1.attrs
      (root1.children.set 0 (setTemplateAttrs st))
    let l1' := Xml.node l1.tag l1.attrs (l1.children.set 0 root2)
    let base := Xml.node tree.tag tree.attrs (tree.children.set 1 l1')
    pure (some base, acc.2 ++ [(rate, w, hh)])
  | some b =>
    let b1 ← b.children[1]?
    let broot ← b1.children[0]?
    let broot' := Xml.node broot.tag broot.attrs (broot.children ++ [rep'])
    let b1' := Xml.node b1.tag b1.attrs (b1.children.set 0 broot')
    let b' := Xml.node b.tag b.attrs (b.children.set 1 b1')
    pure (some b', acc.2 ++ [(rate, w, hh)])

def bcmGo (rates : List ℕ) (frags : ℕ → Xml) :
    List ℕ → Option Xml × List (ℕ × ℤ × ℤ) →
    Option (Option Xml × List (ℕ × ℤ × ℤ))
  | [], acc => some acc
  | rate :: rest, acc => do
    let acc' ← bcmStep rates frags acc rate
    bcmGo rates frags rest acc'

/-- `build_common_manifest` (lines 107-158): merge the per-rate
fragments in input order and return the merged tree together with the
per-rate `(width, height)` info. -/
def build_common_manifest (rates : List ℕ) (frags : ℕ → Xml) :
    Option (Xml × List (ℕ × ℤ × ℤ)) := do
  let st ← bcmGo rates frags rates (none, [])
  let b ← st.1
  pure (b, st.2)

/-- `tree[1][0]` of the merged manifest: the node holding the
representation descriptions. -/
def manifestAset (m : Xml) : Option Xml := do
  let l1 ← m.children[1]?
  l1.children[0]?

/-- The `id` attributes of the Representation children of the merged
manifest, in document order. -/
def manifestRepIds (m : Xml) : Option (List (Option String)) :=
  (manifestAset m).map
    (fun a => (a.children.filter hasRepTag).map (fun c => c.getAttr "id"))

def manifestTemplateInit (m : Xml) : Option String := do
  let a ← manifestAset m
  let st ← a.children[0]?
  st.getAttr "initialization"

def manifestTemplateMedia (m : Xml) : Option String := do
  let a ← manifestAset m
  let st ← a.children[0]?
  st.getAttr "media"

/-- The fixed tree shape `build_common_manifest` navigates:
`MPD [c0, Period (AdaptationSet cs :: prest)]`, where `cs` are the
AdaptationSet children. -/
def mkBase (mt : String) (ma : List (String × String)) (c0 : Xml)
    (pt : String) (pa : List (String × String))
    (att : String) (aa : List (String × String))
    (cs prest : List Xml) : Xml :=
  Xml.node mt ma [c0, Xml.node pt pa (Xml.node att aa cs :: prest)]

/-- Well-formed intermediate fragment: the MP4Box output shape with one
SegmentTemplate followed by exactly one Representation carrying
parsable `width` and `height` attributes. -/
def WFFrag (x : Xml) : Prop :=
  ∃ mt ma c0 pt pa att aa st rp prest,
    x = mkBase mt ma c0 pt pa att aa [st, rp] prest ∧
    hasRepTag st = false ∧ hasRepTag rp = true ∧
    (∃ ws w, rp.getAttr "width" = some ws ∧ pyInt? ws.data = some w) ∧
    (∃ hs hh, rp.getAttr "height" = some hs ∧ pyInt? hs.data = some hh)

/-- A fragment shaped like MP4Box `-dash-profile live` output:
MPD with ProgramInformation and Period, one AdaptationSet holding one
SegmentTemplate and one Representation. -/
def demoFrag (w h bw : String) : Xml :=
  Xml.node "MPD" [("type", "static")]
    [Xml.node "ProgramInformation" [] [],
     Xml.node "Period" [("duration", "PT0H0M10S")]
       [Xml.node "AdaptationSet" [("segmentAlignment", "true")]
         [Xml.node "SegmentTemplate"
            [("timescale", "12800"), ("duration", "64000")] [],
          Xml.node "Representation"
            [("id", "1"), ("mimeType", "video/mp4"), ("width", w),
             ("height", h), ("bandwidth", bw)] []]]]

def demoFrags : ℕ → Xml := fun r =>
  if r = 600 then demoFrag "1280" "720" "600000"
  else demoFrag "640" "360" "300000"

/-- Claim C1: extract_vmaf_score tries the known schemas in order and
returns the matched scalar: the aggregate schema yields `VMAF_score`;
the pooled-metrics schema prefers `mean`, then `harmonic_mean`, `min`,
`max`; and the generic depth-first fallback returns the first numeric
value under a key lower-casing to `vmaf_score` or `vmaf`. -/
theorem extract_vmaf_score_known_schemas :
    extract_vmaf_score (Json.obj [("aggregate",
        Json.obj [("VMAF_score", Json.num 87.5)])]) = Except.ok 87.5 ∧
    extract_vmaf_score (Json.obj [("pooled_metrics",
        Json.obj [("vmaf", Json.obj [("mean", Json.num 90.1),
          ("harmonic_mean", Json.num 88.0)])])]) = Except.ok 90.1 ∧
    extract_vmaf_score (Json.obj [("pooled_metrics",
        Json.obj [("vmaf", Json.obj [("harmonic_mean", Json.num 88.0),
          ("min", Json.num 10.0), ("max", Json.num 99.0)])])]) =
      Except.ok 88.0 ∧
    extract_vmaf_score (Json.obj [("foo",
        Json.obj [("bar", Json.arr [Json.obj [("VMAF", Json.num 77.0)]])])]) =
      Except.ok 77.0 := by
  refine ⟨rfl, rfl, rfl, rfl⟩

/-- Claim C5: when no schema matches and the generic walk finds no
case-insensitive `vmaf_score`/`vmaf` key with a numeric value,
extraction fails with an error naming the top-level keys of a keyed
report, or its type otherwise. -/
theorem extract_vmaf_score_failure (v : Json)
    (h1 : tryAgg v = none) (h2 : tryPooled v = none)
    (h3 : tryMetrics v = none) (h4 : walk v = none) :
    extract_vmaf_score v =
      Except.error (VmafErr.notFound (topShape v)) ∧
    (∀ l, v = Json.obj l →
      topShape v = TopShape.keys (l.map (fun p => p.1))) ∧
    (∀ l, v = Json.arr l → topShape v = TopShape.typeName "list") := by
  refine ⟨?_, ?_, ?_⟩
  · simp [extract_vmaf_score, h1, h2, h3, h4]
  · intro l hl; subst hl; rfl
  · intro l hl; subst hl; rfl

/-- Concrete instance of the failure theorem: a report with only
unrelated keys produces the `KeyError` naming its top-level keys. -/
theorem extract_vmaf_score_failure_witness :
    extract_vmaf_score (Json.obj [("foo", Json.num 3), ("bar", Json.null)]) =
      Except.error (VmafErr.notFound (TopShape.keys ["foo", "bar"])) :=
  (extract_vmaf_score_failure
    (Json.obj [("foo", Json.num 3), ("bar", Json.null)])
    rfl rfl rfl rfl).1

theorem lookupSeg_append (l₁ l₂ : List (ℕ × ℚ)) (k : ℕ) :
    lookupSeg (l₁ ++ l₂) k = (lookupSeg l₁ k).or (lookupSeg l₂ k) := by
  unfold lookupSeg
  rw [List.find?_append]
  cases List.find? (fun p => p.1 == k) l₁ <;> rfl

theorem lookupSeg_mkSegMap (f : ℕ → ℚ) (s k : ℕ) :
    lookupSeg (mkSegMap f s) k =
      if 1 ≤ k ∧ k ≤ s then some (f k) else none := by
  induction s with
  | zero =>
    rw [mkSegMap, if_neg (by omega)]
    rfl
  | succ n ih =>
    rw [mkSegMap, lookupSeg_append, ih]
    by_cases hk : 1 ≤ k ∧ k ≤ n
    · rw [if_pos hk, if_pos (by omega : 1 ≤ k ∧ k ≤ n + 1)]
      rfl
    · rw [if_neg hk]
      by_cases hk' : k = n + 1
      · subst hk'
        rw [if_pos (by omega)]
        simp [lookupSeg, List.find?]
      · rw [if_neg (by omega)]
        have hbeq : (n + 1 == k) = false := by
          simp only [beq_eq_false_iff_ne, ne_eq]
          omega
        simp [lookupSeg, List.find?, hbeq]

theorem maxKey_snoc (m : List (ℕ × ℚ)) (k : ℕ) (v : ℚ) :
    maxKey (m ++ [(k, v)]) =
      some ((maxKey m).elim k (fun j => max j k)) := by
  unfold maxKey
  rw [List.map_append]
  rcases h : m.map (fun p => p.1) with _ | ⟨a, as⟩
  · rw [h]
    simp
  · rw [h]
    simp [List.foldl_append]

theorem maxKey_mkSegMap (f : ℕ → ℚ) (s : ℕ) (hs : 1 ≤ s) :
    maxKey (mkSegMap f s) = some s := by
  induction s with
  | zero => omega
  | succ n ih =>
    rw [mkSegMap, maxKey_snoc]
    rcases Nat.eq_zero_or_pos n with hn | hn
    · subst hn; rfl
    · rw [ih hn]
      simp only [Option.elim_some, Option.some.injEq]
      omega

theorem segDuration_mkSegMap_mid (s : ℕ) (f : ℕ → ℚ) (n : ℕ)
    (h1 : 1 ≤ n) (h2 : n < s) :
    segDuration (mkSegMap f s) n = some (f (n + 1) - f n) := by
  rw [segDuration, maxKey_mkSegMap f s (by omega)]
  simp only [Option.bind_eq_bind, Option.some_bind]
  rw [lookupSeg_mkSegMap, if_pos ⟨h1, by omega⟩]
  simp only [Option.some_bind]
  rw [if_pos h2, lookupSeg_mkSegMap, if_pos ⟨by omega, by omega⟩]
  rfl

theorem segDuration_mkSegMap_last (s : ℕ) (f : ℕ → ℚ) (hs : 2 ≤ s) :
    segDuration (mkSegMap f s) s = some (f s - f (s - 1)) := by
  rw [segDuration, maxKey_mkSegMap f s (by omega)]
  simp only [Option.bind_eq_bind, Option.some_bind]
  rw [lookupSeg_mkSegMap, if_pos ⟨by omega, le_refl s⟩]
  simp only [Option.some_bind]
  rw [if_neg (lt_irrefl s), lookupSeg_mkSegMap, if_pos ⟨by omega, by omega⟩]
  rfl

/-- Claim C4: in compute_vmaf, every non-final segment `n` of a
representation with `s` segments gets the window duration
`start(n+1) - start(n)`, and the final segment (when a previous segment
exists) gets `start(s) - start(s-1)`. -/
theorem compute_vmaf_segment_durations (s : ℕ) (f : ℕ → ℚ) :
    (∀ n, 1 ≤ n → n < s →
      segDuration (mkSegMap f s) n = some (f (n + 1) - f n)) ∧
    (2 ≤ s →
      segDuration (mkSegMap f s) s = some (f s - f (s - 1))) :=
  ⟨fun n h1 h2 => segDuration_mkSegMap_mid s f n h1 h2,
   fun hs => segDuration_mkSegMap_last s f hs⟩

/-- Concrete instance of the duration theorem at `s = 3`. -/
theorem compute_vmaf_segment_durations_witness :
    segDuration (mkSegMap (fun n => (n : ℚ) * 5) 3) 1 = some 5 ∧
    segDuration (mkSegMap (fun n => (n : ℚ) * 5) 3) 3 = some 5 := by
  constructor
  · have h := (compute_vmaf_segment_durations 3 (fun n => (n : ℚ) * 5)).1
      1 (by norm_num) (by norm_num)
    rw [h]; norm_num
  · have h := (compute_vmaf_segment_durations 3 (fun n => (n : ℚ) * 5)).2
      (by norm_num)
    rw [h]; norm_num

/-- Claim C6 counterexample: the code's last-segment duration is
`start(s) - start(s-1)`, not `total - start(s)`; with boundaries
0, 5, 8 and (for instance) a true total duration of 12, the code
attributes 3 to the last segment where the claimed formula gives 4. -/
theorem last_duration_ignores_total :
    ¬ (∀ (total : ℚ) (s : ℕ) (f : ℕ → ℚ), 2 ≤ s →
        segDuration (mkSegMap f s) s = some (total - f s)) := by
  intro hclaim
  have h1 := hclaim 100 3 (fun n => (n : ℚ) * (n : ℚ)) (by norm_num)
  rw [segDuration_mkSegMap_last 3 _ (by norm_num)] at h1
  have h2 := Option.some.inj h1
  norm_num at h2

/-- Claim C6 amended: the final segment's duration is reconstructed as
`start(last) - start(last-1)`; the stream's total duration does not
enter the computation (it is unavailable to `compute_vmaf`). -/
theorem last_duration_from_previous_boundary (s : ℕ) (f : ℕ → ℚ)
    (hs : 2 ≤ s) :
    segDuration (mkSegMap f s) s = some (f s - f (s - 1)) :=
  segDuration_mkSegMap_last s f hs

/-- Concrete instance of the amended last-segment formula at `s = 2`. -/
theorem last_duration_from_previous_boundary_witness :
    segDuration (mkSegMap (fun n => (n : ℚ) * 7) 2) 2 = some 7 := by
  have h := last_duration_from_previous_boundary 2 (fun n => (n : ℚ) * 7)
    (le_refl 2)
  rw [h]
  norm_num

/-- Claim C10: quality scoring is undefined for a representation with a
single segment: the last-segment branch looks up the start time of
segment 0, absent from the map whose keys start at 1, so the duration
lookup and with it the whole per-rate window computation fail instead
of producing a score. -/
theorem compute_vmaf_single_segment_fails (f : ℕ → ℚ) :
    segDuration (mkSegMap f 1) 1 = none ∧
    vmafWindows (mkSegMap f 1) = none := by
  have hmax : maxKey (mkSegMap f 1) = some 1 := maxKey_mkSegMap f 1 le_rfl
  have hdur : segDuration (mkSegMap f 1) 1 = none := by
    rw [segDuration, hmax]
    simp only [Option.bind_eq_bind, Option.some_bind]
    rw [lookupSeg_mkSegMap, if_pos (by omega)]
    simp only [Option.some_bind]
    rw [if_neg (lt_irrefl 1), lookupSeg_mkSegMap, if_neg (by omega)]
    rfl
  refine ⟨hdur, ?_⟩
  rw [vmafWindows, hmax]
  simp only [Option.bind_eq_bind, Option.some_bind,
    show List.range 1 = [0] from rfl, List.mapM_cons, List.mapM_nil]
  simp [lookupSeg_mkSegMap, hdur]

/-- Concrete instance of the single-segment failure. -/
theorem compute_vmaf_single_segment_fails_witness :
    segDuration (mkSegMap (fun _ => (0 : ℚ)) 1) 1 = none ∧
    vmafWindows (mkSegMap (fun _ => (0 : ℚ)) 1) = none :=
  compute_vmaf_single_segment_fails (fun _ => (0 : ℚ))

theorem mapM_eq_some_map {β : Type} (l : List ℕ) (F : ℕ → Option β)
    (g : ℕ → β) (h : ∀ i ∈ l, F i = some (g i)) :
    l.mapM F = some (l.map g) := by
  induction l with
  | nil => rfl
  | cons x xs ih =>
    rw [List.mapM_cons, h x (List.mem_cons_self x xs),
      ih (fun i hi => h i (List.mem_cons_of_mem x hi))]
    rfl

/-- Claim C7: for every produced chunk, `segment_rep` reports the start
time as exactly `earliest_presentation_time / timescale`, both parsed
from the chunk's segment index box output. -/
theorem segment_rep_start_times (segments : ℕ) (raw : ℕ → String)
    (t e : ℕ → ℤ)
    (h : ∀ seg, 1 ≤ seg → seg ≤ segments →
      (get_attr (raw seg) "timescale").bind pyInt? = some (t seg) ∧
      (get_attr (raw seg) "earliest_presentation_time").bind pyInt? =
        some (e seg) ∧
      t seg ≠ 0) :
    segStartTimes segments raw =
      some ((List.range segments).map (fun i =>
        (i + 1, (e (i + 1) : ℚ) / (t (i + 1) : ℚ)))) := by
  apply mapM_eq_some_map
  intro i hi
  have hib : 1 ≤ i + 1 ∧ i + 1 ≤ segments := by
    rw [List.mem_range] at hi
    omega
  obtain ⟨h1, h2, h3⟩ := h (i + 1) hib.1 hib.2
  obtain ⟨c1, hc1, hv1⟩ := Option.bind_eq_some.mp h1
  obtain ⟨c2, hc2, hv2⟩ := Option.bind_eq_some.mp h2
  simp only [Option.bind_eq_bind, hc1, Option.some_bind, hv1, hc2, hv2]
  rw [if_neg h3]
  rfl

/-- Concrete instance of the start-time theorem on a realistic index
line: `64000 / 12800 = 5` seconds. -/
theorem segment_rep_start_times_witness :
    segStartTimes 1 (fun _ => sidxDemo) = some [(1, 5)] := by
  have h := segment_rep_start_times 1 (fun _ => sidxDemo)
    (fun _ => 12800) (fun _ => 64000)
    (by
      intro seg h1 h2
      refine ⟨?_, ?_, ?_⟩
      · show (get_attr sidxDemo "timescale").bind pyInt? = some 12800
        decide
      · show (get_attr sidxDemo "earliest_presentation_time").bind pyInt? =
          some 64000
        decide
      · show (12800 : ℤ) ≠ 0
        decide)
  rw [h, show List.range 1 = [0] from rfl]
  norm_num

theorem transcode_cmds_foldl (src_mp4 out_dir : String)
    (rates : List ℕ) (fps seg_s : ℕ) (isfile : String → Bool)
    (acc : List (ℕ × String) × List EncodeCmd) (c : EncodeCmd)
    (hacc : ∀ c' ∈ acc.2, c'.gop = fps * seg_s ∧
      c'.keyint_min = fps * seg_s ∧ c'.sc_threshold = 0)
    (hc : c ∈ (rates.foldl
      (fun acc r =>
        let out_mp4 := out_dir ++ "/rep_" ++ toString r ++ ".mp4"
        if isfile out_mp4 then
          (acc.1 ++ [(r, out_mp4)], acc.2)
        else
          (acc.1 ++ [(r, out_mp4)],
           acc.2 ++ [⟨src_mp4, fps, fps * seg_s, fps * seg_s, 0,
             r, 2 * r, 4 * r, out_mp4⟩])) acc).2) :
    c.gop = fps * seg_s ∧ c.keyint_min = fps * seg_s ∧
      c.sc_threshold = 0 := by
  induction rates generalizing acc with
  | nil => exact hacc c hc
  | cons r rest ih =>
    rw [List.foldl_cons] at hc
    apply ih _ _ hc
    intro c' hc'
    by_cases hf : isfile (out_dir ++ "/rep_" ++ toString r ++ ".mp4")
    · rw [if_pos hf] at hc'
      exact hacc c' hc'
    · rw [if_neg hf] at hc'
      rcases List.mem_append.mp hc' with hmem | hmem
      · exact hacc c' hmem
      · rcases List.mem_singleton.mp hmem with rfl
        exact ⟨rfl, rfl, rfl⟩

/-- Claim C8: every encoder invocation forces the keyframe interval to
exactly `fps * seg_s` frames, sets the minimum keyframe interval to the
same value, and disables scene-change keyframe insertion
(`sc_threshold 0`); at 24 fps with 5-second segments the GOP size is
120 frames. -/
theorem transcode_forced_gop (src_mp4 out_dir : String)
    (rates : List ℕ) (fps seg_s : ℕ) (isfile : String → Bool)
    (c : EncodeCmd)
    (hc : c ∈ (transcode_h264_reps src_mp4 out_dir rates fps seg_s
      isfile).2) :
    c.gop = fps * seg_s ∧ c.keyint_min = fps * seg_s ∧
      c.sc_threshold = 0 ∧
      (fps = 24 → seg_s = 5 → c.gop = 120) := by
  have h := transcode_cmds_foldl src_mp4 out_dir rates fps seg_s isfile
    ([], []) c (by intro c' hc'; exact absurd hc' (List.not_mem_nil c'))
    (by exact hc)
  exact ⟨h.1, h.2.1, h.2.2, fun h24 h5 => by rw [h.1, h24, h5]⟩

/-- Concrete instance: one missing 300 kbps output at 24 fps, 5 s
segments yields a single invocation with GOP 120. -/
theorem transcode_forced_gop_witness :
    ∃ c, c ∈ (transcode_h264_reps "in.mp4" "tmp" [300] 24 5
        (fun _ => false)).2 ∧
      c.gop = 120 ∧ c.keyint_min = 120 ∧ c.sc_threshold = 0 := by
  refine ⟨⟨"in.mp4", 24, 120, 120, 0, 300, 600, 1200, "tmp/rep_300.mp4"⟩,
    ?_, ?_⟩
  · decide
  · have h := transcode_forced_gop "in.mp4" "tmp" [300] 24 5
      (fun _ => false)
      ⟨"in.mp4", 24, 120, 120, 0, 300, 600, 1200, "tmp/rep_300.mp4"⟩
      (by decide)
    exact ⟨h.2.2.2 rfl rfl, h.2.1, h.2.2.1⟩

/-- Claim C9 counterexample: with every output file already present, a
re-run issues no encodes and no scoring, but still re-segments every
rate — the claimed "no re-segmentation" is false. -/
theorem rerun_still_resegments :
    run_actions "clip" [300, 600] 24 5 (fun _ => true) true =
      [Action.mp4boxSegment 300, Action.mp4boxSegment 600] ∧
    run_actions "clip" [300, 600] 24 5 (fun _ => true) true ≠ [] := by
  refine ⟨by decide, by decide⟩

theorem transcode_no_cmds_of_all_exist (src_mp4 out_dir : String)
    (rates : List ℕ) (fps seg_s : ℕ) (isfile : String → Bool)
    (hall : ∀ p, isfile p = true) :
    (transcode_h264_reps src_mp4 out_dir rates fps seg_s isfile).2 = [] := by
  unfold transcode_h264_reps
  have : ∀ (acc : List (ℕ × String) × List EncodeCmd),
      (rates.foldl (fun acc r =>
        let out_mp4 := out_dir ++ "/rep_" ++ toString r ++ ".mp4"
        if isfile out_mp4 then
          (acc.1 ++ [(r, out_mp4)], acc.2)
        else
          (acc.1 ++ [(r, out_mp4)],
           acc.2 ++ [⟨src_mp4, fps, fps * seg_s, fps * seg_s, 0,
             r, 2 * r, 4 * r, out_mp4⟩])) acc).2 = acc.2 := by
    induction rates with
    | nil => intro acc; rfl
    | cons r rest ih =>
      intro acc
      rw [List.foldl_cons]
      rw [if_pos (hall _)]
      exact ih _
  exact this ([], [])

/-- Claim C9 amended: when every representation file and `vmaf.json`
already exist, a re-run performs no re-encoding and no re-scoring, but
it unconditionally re-segments every rate (`segment_rep` clears and
regenerates each segment directory on every run). -/
theorem rerun_skips_encode_and_score_only (video_name : String)
    (rates : List ℕ) (fps seg_s : ℕ) (isfile : String → Bool)
    (hall : ∀ p, isfile p = true) :
    run_actions video_name rates fps seg_s isfile true =
      rates.map (fun r => Action.mp4boxSegment r) := by
  unfold run_actions
  rw [transcode_no_cmds_of_all_exist _ _ _ _ _ _ hall, hall]
  simp

/-- Concrete instance of the amended re-run theorem. -/
theorem rerun_skips_encode_and_score_only_witness :
    run_actions "clip" [300, 600, 1200] 24 5 (fun _ => true) true =
      [Action.mp4boxSegment 300, Action.mp4boxSegment 600,
        Action.mp4boxSegment 1200] := by
  rw [rerun_skips_encode_and_score_only "clip" [300, 600, 1200] 24 5
    (fun _ => true) (fun _ => rfl)]
  rfl

theorem find?_cons_eq {α : Type} (p : α → Bool) (a : α) (l : List α) :
    (a :: l).find? p = if p a then some a else l.find? p := by
  cases h : p a
  · simp [List.find?, h]
  · simp [List.find?, h]

theorem find?_setAttrList_self (l : List (String × String)) (k v : String) :
    ((setAttrList l k v).find? (fun p => p.1 == k)).map (fun p => p.2) =
      some v := by
  induction l with
  | nil =>
    simp [setAttrList, List.find?]
  | cons p rest ih =>
    by_cases hp : (p.1 == k) = true
    · rw [setAttrList,
        if_pos (by rw [List.any_cons, hp]; exact Bool.true_or _)]
      rw [List.map_cons, if_pos hp, find?_cons_eq]
      rw [if_pos (by simp)]
      rfl
    · have hpf : (p.1 == k) = false := Bool.eq_false_iff.mpr hp
      by_cases hany : rest.any (fun q => q.1 == k) = true
      · rw [setAttrList,
          if_pos (by rw [List.any_cons, hany]; exact Bool.or_true _)]
        rw [List.map_cons, if_neg hp, find?_cons_eq, if_neg (by simp [hpf])]
        rw [setAttrList, if_pos hany] at ih
        exact ih
      · rw [setAttrList,
          if_neg (by
            rw [List.any_cons, hpf, Bool.eq_false_iff.mpr hany]
            simp)]
        rw [List.cons_append, find?_cons_eq, if_neg (by simp [hpf])]
        rw [setAttrList, if_neg hany] at ih
        exact ih

theorem find?_map_replace_ne (l : List (String × String)) (k v k' : String)
    (h : k' ≠ k) :
    (l.map (fun p => if p.1 == k then (k, v) else p)).find?
        (fun p => p.1 == k') =
      l.find? (fun p => p.1 == k') := by
  have hkk' : (k == k') = false := by
    simp only [beq_eq_false_iff_ne, ne_eq]
    exact fun he => h he.symm
  induction l with
  | nil => rfl
  | cons q rest ih =>
    rw [List.map_cons, find?_cons_eq, find?_cons_eq]
    by_cases hq : (q.1 == k) = true
    · have hq1 : q.1 = k := by simpa using hq
      rw [if_pos hq]
      rw [show (((k, v) : String × String).1 == k') = false from hkk']
      rw [show (q.1 == k') = false from hq1 ▸ hkk']
      simpa using ih
    · rw [if_neg hq]
      by_cases hq' : (q.1 == k') = true
      · rw [hq']
        simp
      · rw [Bool.eq_false_iff.mpr hq']
        simpa using ih

theorem find?_setAttrList_ne (l : List (String × String)) (k v k' : String)
    (h : k' ≠ k) :
    (setAttrList l k v).find? (fun p => p.1 == k') =
      l.find? (fun p => p.1 == k') := by
  rw [setAttrList]
  by_cases hany : l.any (fun p => p.1 == k) = true
  · rw [if_pos hany]
    exact find?_map_replace_ne l k v k' h
  · rw [if_neg hany, List.find?_append]
    have hnone : List.find? (fun p => p.1 == k') [(k, v)] = none := by
      rw [find?_cons_eq]
      rw [show (((k, v) : String × String).1 == k') = false from by
        simp only [beq_eq_false_iff_ne, ne_eq]
        exact fun he => h he.symm]
      rfl
    rw [hnone, Option.or_none]

theorem getAttr_setAttr_self (x : Xml) (k v : String) :
    (x.setAttr k v).getAttr k = some v := by
  cases x
  simp only [Xml.setAttr, Xml.getAttr]
  exact find?_setAttrList_self _ k v

theorem getAttr_setAttr_ne (x : Xml) (k v k' : String) (h : k' ≠ k) :
    (x.setAttr k v).getAttr k' = x.getAttr k' := by
  cases x
  simp only [Xml.setAttr, Xml.getAttr]
  rw [find?_setAttrList_ne _ k v k' h]

theorem hasRepTag_setAttr (x : Xml) (k v : String) :
    hasRepTag (x.setAttr k v) = hasRepTag x := by
  cases x
  rfl

theorem getAttr_setTemplateAttrs_init (st : Xml) :
    (setTemplateAttrs st).getAttr "initialization" =
      some "$RepresentationID$/init.mp4" := by
  rw [setTemplateAttrs, getAttr_setAttr_ne _ _ _ _ (by decide),
    getAttr_setAttr_self]

theorem getAttr_setTemplateAttrs_media (st : Xml) :
    (setTemplateAttrs st).getAttr "media" =
      some "$RepresentationID$/$Number$.m4s" := by
  rw [setTemplateAttrs, getAttr_setAttr_self]

theorem hasRepTag_setTemplateAttrs (st : Xml) :
    hasRepTag (setTemplateAttrs st) = hasRepTag st := by
  rw [setTemplateAttrs, hasRepTag_setAttr, hasRepTag_setAttr]

theorem pySorted_perm (l : List ℕ) : (pySorted l).Perm l :=
  List.perm_insertionSort _ l

theorem pySorted_sorted (l : List ℕ) :
    List.Sorted (fun a b => a ≤ b) (pySorted l) :=
  List.sorted_insertionSort _ l

theorem pySorted_eq_self_of_sorted (l : List ℕ)
    (h : List.Sorted (fun a b => a ≤ b) l) : pySorted l = l :=
  List.eq_of_perm_of_sorted (pySorted_perm l) (pySorted_sorted l) h

theorem pySorted_eq_of_perm (l l' : List ℕ) (h : l'.Perm l) :
    pySorted l' = pySorted l :=
  List.eq_of_perm_of_sorted
    ((pySorted_perm l').trans (h.trans (pySorted_perm l).symm))
    (pySorted_sorted l') (pySorted_sorted l)

theorem rankIdx_lt_length (rates : List ℕ) (r : ℕ) (hr : r ∈ rates) :
    rankIdx rates r < rates.length := by
  rw [rankIdx, ← (pySorted_perm rates).length_eq]
  exact List.indexOf_lt_length.mpr ((pySorted_perm rates).mem_iff.mpr hr)

theorem rankIdx_injOn (rates : List ℕ) (r r' : ℕ)
    (hr : r ∈ rates) (hr' : r' ∈ rates)
    (h : rankIdx rates r = rankIdx rates r') : r = r' := by
  have hlt1 := List.indexOf_lt_length.mpr ((pySorted_perm rates).mem_iff.mpr hr)
  have hlt2 := List.indexOf_lt_length.mpr ((pySorted_perm rates).mem_iff.mpr hr')
  have h1 := List.indexOf_get hlt1
  have h2 := List.indexOf_get hlt2
  rw [← h1, ← h2]
  have hfin : (⟨List.indexOf r (pySorted rates), hlt1⟩ :
      Fin (pySorted rates).length) =
      ⟨List.indexOf r' (pySorted rates), hlt2⟩ := Fin.ext h
  rw [hfin]

theorem rankIdx_surjOn (rates : List ℕ) (hnd : rates.Nodup) (k : ℕ)
    (hk : k < rates.length) : ∃ r ∈ rates, rankIdx rates r = k := by
  have hk' : k < (pySorted rates).length := by
    rw [(pySorted_perm rates).length_eq]
    exact hk
  refine ⟨(pySorted rates).get ⟨k, hk'⟩, ?_, ?_⟩
  · exact (pySorted_perm rates).mem_iff.mp (List.get_mem _ k hk')
  · exact List.get_indexOf ((pySorted_perm rates).nodup_iff.mpr hnd) ⟨k, hk'⟩

theorem rankIdx_perm_invariant (rates rates' : List ℕ)
    (h : rates'.Perm rates) (r : ℕ) :
    rankIdx rates' r = rankIdx rates r := by
  rw [rankIdx, rankIdx, pySorted_eq_of_perm rates rates' h]

theorem rankIdx_of_sorted (rates : List ℕ)
    (hs : List.Sorted (fun a b => a ≤ b) rates) (hnd : rates.Nodup)
    (i : ℕ) (hi : i < rates.length) :
    rankIdx rates (rates.get ⟨i, hi⟩) = i := by
  rw [rankIdx, pySorted_eq_self_of_sorted rates hs]
  exact List.get_indexOf hnd ⟨i, hi⟩

theorem getElem?_one {α : Type} (a b : α) (l : List α) :
    (a :: b :: l)[1]? = some b := by
  simp

theorem getElem?_zero {α : Type} (a : α) (l : List α) :
    (a :: l)[0]? = some a := by
  simp

theorem lastRep?_pair (st rp : Xml) (hst : hasRepTag st = false)
    (hrp : hasRepTag rp = true) : lastRep? [st, rp] = some (1, rp) := by
  simp [lastRep?, hst, hrp]

theorem bcmStep_none (rates : List ℕ) (frags : ℕ → Xml) (rate : ℕ)
    (info : List (ℕ × ℤ × ℤ)) (mt : String)
    (ma : List (String × String)) (c0 : Xml) (pt : String)
    (pa : List (String × String)) (att : String)
    (aa : List (String × String)) (st rp : Xml) (prest : List Xml)
    (ws hs : String) (w hh : ℤ)
    (hfrag : frags rate = mkBase mt ma c0 pt pa att aa [st, rp] prest)
    (hst : hasRepTag st = false) (hrp : hasRepTag rp = true)
    (hw : rp.getAttr "width" = some ws) (hwv : pyInt? ws.data = some w)
    (hh1 : rp.getAttr "height" = some hs) (hh2 : pyInt? hs.data = some hh) :
    bcmStep rates frags (none, info) rate =
      some (some (mkBase mt ma c0 pt pa att aa
          [setTemplateAttrs st, rp.setAttr "id" (rankId rates rate)] prest),
        info ++ [(rate, w, hh)]) := by
  have hw' : (rp.setAttr "id" (rankId rates rate)).getAttr "width" =
      some ws := by
    rw [getAttr_setAttr_ne _ _ _ _ (by decide)]
    exact hw
  have hh' : (rp.setAttr "id" (rankId rates rate)).getAttr "height" =
      some hs := by
    rw [getAttr_setAttr_ne _ _ _ _ (by decide)]
    exact hh1
  simp only [bcmStep, hfrag, mkBase, Xml.children, Xml.tag, Xml.attrs,
    getElem?_one, getElem?_zero, Option.bind_eq_bind, Option.some_bind,
    lastRep?_pair st rp hst hrp, hw', hwv, hh', hh2, List.set]
  rfl

theorem bcmStep_some (rates : List ℕ) (frags : ℕ → Xml) (rate : ℕ)
    (info : List (ℕ × ℤ × ℤ)) (b : Xml) (mt : String)
    (ma : List (String × String)) (c0 : Xml) (pt : String)
    (pa : List (String × String)) (att : String)
    (aa : List (String × String)) (cs prest : List Xml)
    (mt' : String) (ma' : List (String × String)) (c0' : Xml)
    (pt' : String) (pa' : List (String × String)) (att' : String)
    (aa' : List (String × String)) (st rp : Xml) (prest' : List Xml)
    (ws hs : String) (w hh : ℤ)
    (hb : b = mkBase mt ma c0 pt pa att aa cs prest)
    (hfrag : frags rate = mkBase mt' ma' c0' pt' pa' att' aa' [st, rp] prest')
    (hst : hasRepTag st = false) (hrp : hasRepTag rp = true)
    (hw : rp.getAttr "width" = some ws) (hwv : pyInt? ws.data = some w)
    (hh1 : rp.getAttr "height" = some hs) (hh2 : pyInt? hs.data = some hh) :
    bcmStep rates frags (some b, info) rate =
      some (some (mkBase mt ma c0 pt pa att aa
          (cs ++ [rp.setAttr "id" (rankId rates rate)]) prest),
        info ++ [(rate, w, hh)]) := by
  have hw' : (rp.setAttr "id" (rankId rates rate)).getAttr "width" =
      some ws := by
    rw [getAttr_setAttr_ne _ _ _ _ (by decide)]
    exact hw
  have hh' : (rp.setAttr "id" (rankId rates rate)).getAttr "height" =
      some hs := by
    rw [getAttr_setAttr_ne _ _ _ _ (by decide)]
    exact hh1
  simp only [bcmStep, hb, hfrag, mkBase, Xml.children, Xml.tag, Xml.attrs,
    getElem?_one, getElem?_zero, Option.bind_eq_bind, Option.some_bind,
    lastRep?_pair st rp hst hrp, hw', hwv, hh', hh2, List.set]
  rfl

theorem bcmGo_append (rates : List ℕ) (frags : ℕ → Xml) (rest : List ℕ)
    (hwf : ∀ r ∈ rest, WFFrag (frags r))
    (mt : String) (ma : List (String × String)) (c0 : Xml) (pt : String)
    (pa : List (String × String)) (att : String)
    (aa : List (String × String)) (cs prest : List Xml)
    (info : List (ℕ × ℤ × ℤ)) :
    ∃ reps infos,
      bcmGo rates frags rest
          (some (mkBase mt ma c0 pt pa att aa cs prest), info) =
        some (some (mkBase mt ma c0 pt pa att aa (cs ++ reps) prest),
          info ++ infos) ∧
      reps.map (fun x => x.getAttr "id") =
        rest.map (fun r => some (rankId rates r)) ∧
      (∀ x ∈ reps, hasRepTag x = true) := by
  induction rest generalizing cs info with
  | nil =>
    exact ⟨[], [], by simp [bcmGo], by simp, by simp⟩
  | cons r rs ih =>
    obtain ⟨mt', ma', c0', pt', pa', att', aa', st, rp, prest', hfrag, hst,
      hrp, ⟨ws, w, hw, hwv⟩, ⟨hs, hh, hh1, hh2⟩⟩ :=
      hwf r (List.mem_cons_self r rs)
    have hstep := bcmStep_some rates frags r info
      (mkBase mt ma c0 pt pa att aa cs prest) mt ma c0 pt pa att aa cs
      prest mt' ma' c0' pt' pa' att' aa' st rp prest' ws hs w hh rfl
      hfrag hst hrp hw hwv hh1 hh2
    obtain ⟨reps, infos, hgo, hids, htags⟩ :=
      ih (fun x hx => hwf x (List.mem_cons_of_mem r hx))
        (cs ++ [rp.setAttr "id" (rankId rates r)]) (info ++ [(r, w, hh)])
    refine ⟨rp.setAttr "id" (rankId rates r) :: reps,
      (r, w, hh) :: infos, ?_, ?_, ?_⟩
    · simp only [bcmGo, Option.bind_eq_bind, hstep, Option.some_bind]
      rw [hgo]
      simp [List.append_assoc]
    · simp only [List.map_cons, hids, getAttr_setAttr_self]
    · intro x hx
      rcases List.mem_cons.mp hx with hx | hx
      · rw [hx, hasRepTag_setAttr]
        exact hrp
      · exact htags x hx

theorem bcm_spec (rates : List ℕ) (frags : ℕ → Xml) (hne : rates ≠ [])
    (hwf : ∀ r ∈ rates, WFFrag (frags r)) :
    ∃ m info, build_common_manifest rates frags = some (m, info) ∧
      manifestRepIds m =
        some (rates.map (fun r => some (rankId rates r))) ∧
      manifestTemplateInit m = some "$RepresentationID$/init.mp4" ∧
      manifestTemplateMedia m = some "$RepresentationID$/$Number$.m4s" := by
  obtain ⟨r0, rest, rfl⟩ := List.exists_cons_of_ne_nil hne
  obtain ⟨mt, ma, c0, pt, pa, att, aa, st, rp, prest, hfrag, hst, hrp,
    ⟨ws, w, hw, hwv⟩, ⟨hs, hh, hh1, hh2⟩⟩ :=
    hwf r0 (List.mem_cons_self r0 rest)
  have hstep := bcmStep_none (r0 :: rest) frags r0 [] mt ma c0 pt pa att
    aa st rp prest ws hs w hh hfrag hst hrp hw hwv hh1 hh2
  obtain ⟨reps, infos, hgo, hids, htags⟩ :=
    bcmGo_append (r0 :: rest) frags rest
      (fun x hx => hwf x (List.mem_cons_of_mem r0 hx)) mt ma c0 pt pa att
      aa [setTemplateAttrs st, rp.setAttr "id" (rankId (r0 :: rest) r0)]
      prest [(r0, w, hh)]
  refine ⟨mkBase mt ma c0 pt pa att aa
      ([setTemplateAttrs st, rp.setAttr "id" (rankId (r0 :: rest) r0)] ++
        reps) prest,
    [(r0, w, hh)] ++ infos, ?_, ?_, ?_, ?_⟩
  · rw [build_common_manifest]
    simp only [bcmGo, Option.bind_eq_bind, hstep, Option.some_bind,
      List.nil_append]
    rw [hgo]
    simp
  · have hst' : hasRepTag (setTemplateAttrs st) = false := by
      rw [hasRepTag_setTemplateAttrs]
      exact hst
    have hrp' : hasRepTag (rp.setAttr "id" (rankId (r0 :: rest) r0)) =
        true := by
      rw [hasRepTag_setAttr]
      exact hrp
    simp only [manifestRepIds, manifestAset, mkBase, Xml.children,
      getElem?_one, getElem?_zero, Option.bind_eq_bind, Option.some_bind,
      Option.map_some', List.cons_append, List.nil_append]
    rw [List.filter_cons_of_neg (by simp [hst']),
      List.filter_cons_of_pos (by simp [hrp']),
      List.filter_eq_self.mpr htags]
    simp only [List.map_cons, getAttr_setAttr_self, hids]
  · simp only [manifestTemplateInit, manifestAset, mkBase, Xml.children,
      getElem?_one, getElem?_zero, Option.bind_eq_bind, Option.some_bind,
      List.cons_append]
    exact getAttr_setTemplateAttrs_init st
  · simp only [manifestTemplateMedia, manifestAset, mkBase, Xml.children,
      getElem?_one, getElem?_zero, Option.bind_eq_bind, Option.some_bind,
      List.cons_append]
    exact getAttr_setTemplateAttrs_media st

theorem demoFrags_wf : ∀ r ∈ ([300, 600] : List ℕ), WFFrag (demoFrags r) := by
  intro r hr
  rcases List.mem_cons.mp hr with rfl | hr
  · exact ⟨"MPD", [("type", "static")],
      Xml.node "ProgramInformation" [] [], "Period",
      [("duration", "PT0H0M10S")], "AdaptationSet",
      [("segmentAlignment", "true")],
      Xml.node "SegmentTemplate"
        [("timescale", "12800"), ("duration", "64000")] [],
      Xml.node "Representation"
        [("id", "1"), ("mimeType", "video/mp4"), ("width", "640"),
         ("height", "360"), ("bandwidth", "300000")] [],
      [], rfl, rfl, rfl, ⟨"640", 640, rfl, rfl⟩, ⟨"360", 360, rfl, rfl⟩⟩
  · rcases List.mem_cons.mp hr with rfl | hr
    · exact ⟨"MPD", [("type", "static")],
        Xml.node "ProgramInformation" [] [], "Period",
        [("duration", "PT0H0M10S")], "AdaptationSet",
        [("segmentAlignment", "true")],
        Xml.node "SegmentTemplate"
          [("timescale", "12800"), ("duration", "64000")] [],
        Xml.node "Representation"
          [("id", "1"), ("mimeType", "video/mp4"), ("width", "1280"),
           ("height", "720"), ("bandwidth", "600000")] [],
        [], rfl, rfl, rfl, ⟨"1280", 1280, rfl, rfl⟩,
        ⟨"720", 720, rfl, rfl⟩⟩
    · exact absurd hr (List.not_mem_nil r)

/-- Claim C2: build_common_manifest assigns each representation the
identifier `video<k>` with `k` the bitrate's 0-based position in the
ascending-sorted bitrate list; on a duplicate-free bitrate list this
assignment is a bijection onto `0..n-1` and is invariant under any
permutation of the input list. -/
theorem rank_assignment_bijection (rates : List ℕ) (hnd : rates.Nodup) :
    (∀ r ∈ rates, rankIdx rates r < rates.length) ∧
    (∀ r ∈ rates, ∀ r' ∈ rates,
      rankIdx rates r = rankIdx rates r' → r = r') ∧
    (∀ k, k < rates.length → ∃ r ∈ rates, rankIdx rates r = k) ∧
    (∀ rates', rates'.Perm rates → ∀ r,
      rankIdx rates' r = rankIdx rates r) ∧
    (∀ frags, rates ≠ [] → (∀ r ∈ rates, WFFrag (frags r)) →
      ∃ m info, build_common_manifest rates frags = some (m, info) ∧
        manifestRepIds m =
          some (rates.map (fun r => some (rankId rates r)))) := by
  refine ⟨fun r hr => rankIdx_lt_length rates r hr,
    fun r hr r' hr' h => rankIdx_injOn rates r r' hr hr' h,
    fun k hk => rankIdx_surjOn rates hnd k hk,
    fun rates' hperm r => rankIdx_perm_invariant rates rates' hperm r,
    fun frags hne hwf => ?_⟩
  obtain ⟨m, info, h1, h2, _, _⟩ := bcm_spec rates frags hne hwf
  exact ⟨m, info, h1, h2⟩

/-- Concrete instance: reordering `[300, 600]` to `[600, 300]` leaves
the rank of 300 unchanged at 0, and 600 ranks 1. -/
theorem rank_assignment_bijection_witness :
    rankIdx [600, 300] 300 = rankIdx [300, 600] 300 ∧
    rankIdx [300, 600] 300 = 0 ∧ rankIdx [300, 600] 600 = 1 :=
  ⟨(rank_assignment_bijection [300, 600] (by decide)).2.2.2.1 [600, 300]
      (by decide) 300,
   by decide, by decide⟩

/-- Claim C3 amended: the merged manifest holds exactly one
representation node per input bitrate, carrying the rank-based
identifiers and the representation-relative shared template paths, but
the nodes appear in input-list order, which agrees with ascending rank
order exactly when the input list is already sorted ascending. -/
theorem build_common_manifest_nodes (rates : List ℕ) (frags : ℕ → Xml)
    (hne : rates ≠ []) (hnd : rates.Nodup)
    (hwf : ∀ r ∈ rates, WFFrag (frags r)) :
    ∃ m info, build_common_manifest rates frags = some (m, info) ∧
      manifestRepIds m =
        some (rates.map (fun r => some (rankId rates r))) ∧
      manifestTemplateInit m = some "$RepresentationID$/init.mp4" ∧
      manifestTemplateMedia m = some "$RepresentationID$/$Number$.m4s" ∧
      (List.Sorted (fun a b => a ≤ b) rates →
        ∀ i (hi : i < rates.length),
          rankIdx rates (rates.get ⟨i, hi⟩) = i) := by
  obtain ⟨m, info, h1, h2, h3, h4⟩ := bcm_spec rates frags hne hwf
  exact ⟨m, info, h1, h2, h3, h4,
    fun hsorted i hi => rankIdx_of_sorted rates hsorted hnd i hi⟩

/-- Concrete instance: merging the sorted input `[300, 600]` produces
the rank-ordered identifiers `video0`, `video1`. -/
theorem build_common_manifest_nodes_witness :
    (build_common_manifest [300, 600] demoFrags).map
        (fun p => manifestRepIds p.1) =
      some (some [some "video0", some "video1"]) := by
  obtain ⟨m, info, hbuild, hids, h3, h4, h5⟩ :=
    build_common_manifest_nodes [300, 600] demoFrags (by decide)
      (by decide) demoFrags_wf
  rw [hbuild, Option.map_some']
  rw [hids]
  decide

/-- Claim C3 counterexample: with input order `[600, 300]` the merged
manifest lists the 600 kbps node (rank identifier `video1`) before the
300 kbps node (`video0`): representation nodes appear in input order,
not in ascending-bitrate rank order. -/
theorem manifest_reps_follow_input_order :
    (build_common_manifest [600, 300] demoFrags).map
        (fun p => manifestRepIds p.1) =
      some (some [some "video1", some "video0"]) ∧
    (some [some "video1", some "video0"] :
        Option (List (Option String))) ≠
      some [some "video0", some "video1"] := by
  refine ⟨by decide, by decide⟩

end PrepareLocal
